import Mathlib

/-!
Shallow embedding of `generate_tetrahedron.py` (class `Complex`).

Vectors of three floats are modelled as `Vec3` over the real numbers, 3x3
numpy matrices as `Mat3`.  The mutable object state of the Python class is
modelled as an explicit `Complex` record; methods that assign to `self`
(`find_centroid` reassigns `self.equilateral_triangle`) take the state and
return the updated state together with their return value.

File contents are modelled as `List Char`; the float-to-text rendering that
pandas' `to_csv` performs is an explicit parameter `fmt : ℝ → List Char`
of the writing function, since the byte-level decimal rendering of a float
is not part of the geometric computation.
-/

namespace Chemspax

/-- A 3-component coordinate vector (one row of the xyz data). -/
@[ext]
structure Vec3 where
  x : ℝ
  y : ℝ
  z : ℝ

namespace Vec3

noncomputable def add (a b : Vec3) : Vec3 := ⟨a.x + b.x, a.y + b.y, a.z + b.z⟩

noncomputable def sub (a b : Vec3) : Vec3 := ⟨a.x - b.x, a.y - b.y, a.z - b.z⟩

noncomputable def neg (a : Vec3) : Vec3 := ⟨-a.x, -a.y, -a.z⟩

noncomputable def smul (r : ℝ) (a : Vec3) : Vec3 := ⟨r * a.x, r * a.y, r * a.z⟩

/-- Elementwise division by a scalar, as in `vector / np.linalg.norm(vector)`. -/
noncomputable def divScalar (a : Vec3) (r : ℝ) : Vec3 := ⟨a.x / r, a.y / r, a.z / r⟩

noncomputable def dot (a b : Vec3) : ℝ := a.x * b.x + a.y * b.y + a.z * b.z

/-- `np.cross` of two 3-vectors. -/
noncomputable def cross (a b : Vec3) : Vec3 :=
  ⟨a.y * b.z - a.z * b.y, a.z * b.x - a.x * b.z, a.x * b.y - a.y * b.x⟩

noncomputable instance : Add Vec3 := ⟨add⟩

noncomputable instance : Sub Vec3 := ⟨sub⟩

noncomputable instance : Neg Vec3 := ⟨neg⟩

noncomputable instance : SMul ℝ Vec3 := ⟨smul⟩

theorem add_def (a b : Vec3) : a + b = ⟨a.x + b.x, a.y + b.y, a.z + b.z⟩ := rfl

theorem sub_def (a b : Vec3) : a - b = ⟨a.x - b.x, a.y - b.y, a.z - b.z⟩ := rfl

theorem neg_def (a : Vec3) : -a = ⟨-a.x, -a.y, -a.z⟩ := rfl

theorem smul_def (r : ℝ) (a : Vec3) : r • a = ⟨r * a.x, r * a.y, r * a.z⟩ := rfl

end Vec3

/-- `np.linalg.norm` of a 3-vector: the Euclidean norm. -/
noncomputable def linalg_norm (v : Vec3) : ℝ :=
  Real.sqrt (v.x * v.x + v.y * v.y + v.z * v.z)

/-- A 3x3 real matrix, row major: entry `aij` is row `i`, column `j`. -/
@[ext]
structure Mat3 where
  a11 : ℝ
  a12 : ℝ
  a13 : ℝ
  a21 : ℝ
  a22 : ℝ
  a23 : ℝ
  a31 : ℝ
  a32 : ℝ
  a33 : ℝ

namespace Mat3

/-- `np.dot(matrix, vector)`. -/
noncomputable def mulVec (m : Mat3) (v : Vec3) : Vec3 :=
  ⟨m.a11 * v.x + m.a12 * v.y + m.a13 * v.z,
   m.a21 * v.x + m.a22 * v.y + m.a23 * v.z,
   m.a31 * v.x + m.a32 * v.y + m.a33 * v.z⟩

/-- `np.dot(matrix, matrix)`. -/
noncomputable def mul (m n : Mat3) : Mat3 :=
  ⟨m.a11 * n.a11 + m.a12 * n.a21 + m.a13 * n.a31,
   m.a11 * n.a12 + m.a12 * n.a22 + m.a13 * n.a32,
   m.a11 * n.a13 + m.a12 * n.a23 + m.a13 * n.a33,
   m.a21 * n.a11 + m.a22 * n.a21 + m.a23 * n.a31,
   m.a21 * n.a12 + m.a22 * n.a22 + m.a23 * n.a32,
   m.a21 * n.a13 + m.a22 * n.a23 + m.a23 * n.a33,
   m.a31 * n.a11 + m.a32 * n.a21 + m.a33 * n.a31,
   m.a31 * n.a12 + m.a32 * n.a22 + m.a33 * n.a32,
   m.a31 * n.a13 + m.a32 * n.a23 + m.a33 * n.a33⟩

/-- Elementwise matrix sum. -/
noncomputable def add (m n : Mat3) : Mat3 :=
  ⟨m.a11 + n.a11, m.a12 + n.a12, m.a13 + n.a13,
   m.a21 + n.a21, m.a22 + n.a22, m.a23 + n.a23,
   m.a31 + n.a31, m.a32 + n.a32, m.a33 + n.a33⟩

/-- Elementwise scaling, as in `matrix * (1 / (1 + c))`. -/
noncomputable def smul (r : ℝ) (m : Mat3) : Mat3 :=
  ⟨r * m.a11, r * m.a12, r * m.a13,
   r * m.a21, r * m.a22, r * m.a23,
   r * m.a31, r * m.a32, r * m.a33⟩

/-- `np.eye(3)`. -/
noncomputable def eye : Mat3 := ⟨1, 0, 0, 0, 1, 0, 0, 0, 1⟩

noncomputable def transpose (m : Mat3) : Mat3 :=
  ⟨m.a11, m.a21, m.a31, m.a12, m.a22, m.a32, m.a13, m.a23, m.a33⟩

end Mat3

/-- The state of a `Complex` object: the two reference atoms read from rows
0 and 1 of the parsed table (label and coordinates given directly, file
parsing being out of scope), plus the derived fields that `__init__`
computes and stores.  `bond_length` is the bond vector
`atom_to_be_functionalized_xyz - bonded_atom_xyz` and `bond_length_norm`
its elementwise quotient by its Euclidean norm. -/
structure Complex where
  atom_to_be_functionalized_label : List Char
  atom_to_be_functionalized_xyz : Vec3
  bonded_atom_label : List Char
  bonded_atom_xyz : Vec3
  bond_length : Vec3
  bond_length_norm : Vec3
  equilateral_triangle : Vec3 × Vec3 × Vec3

namespace Complex

/-- `Complex.__init__`, given the two parsed rows.  There is no coincidence
check: for coincident atoms the normalisation divides by a zero norm (a NaN
result in floating point; the division-by-zero convention of the reals
here). -/
noncomputable def init (label0 : List Char) (p0 : Vec3) (label1 : List Char) (p1 : Vec3) :
    Complex :=
  let bl : Vec3 := p0 - p1
  { atom_to_be_functionalized_label := label0
    atom_to_be_functionalized_xyz := p0
    bonded_atom_label := label1
    bonded_atom_xyz := p1
    bond_length := bl
    bond_length_norm := bl.divScalar (linalg_norm bl)
    equilateral_triangle :=
      (⟨0, 1 / Real.sqrt 3, 0⟩,
       ⟨-(0.5 : ℝ), -(0.5 : ℝ) / Real.sqrt 3, 0⟩,
       ⟨(0.5 : ℝ), -(0.5 : ℝ) / Real.sqrt 3, 0⟩) }

/-- The static method `Complex.distance`. -/
noncomputable def distance (a b : Vec3) : ℝ :=
  let d : Vec3 := a - b
  Real.sqrt (d.x * d.x + d.y * d.y + d.z * d.z)

/-- `Complex.find_centroid`.  The method reassigns
`self.equilateral_triangle` to the scaled triangle, so it returns the
updated state along with the centroid. -/
noncomputable def find_centroid (st : Complex) : Complex × Vec3 :=
  let b0 := distance st.atom_to_be_functionalized_xyz st.bonded_atom_xyz
  let b := b0 * ((2.0 : ℝ) * Real.sqrt ((2.0 : ℝ) / (3.0 : ℝ)))
  let tri := st.equilateral_triangle
  let st2 := { st with equilateral_triangle := (b • tri.1, b • tri.2.1, b • tri.2.2) }
  let centroid := st.atom_to_be_functionalized_xyz + (b / (3.0 : ℝ)) • st.bond_length_norm
  (st2, centroid)

/-- Lines 54-64 of `generate_substituent_vectors`: the Rodrigues rotation
matrix `np.eye(3) + v_x + v_xsq * (1 / (1 + c))` built from the normalised
bond direction `u` and the normalised template normal `[0, 0, 1]`, with
`v = np.cross(normal, u)`, `v_x` its skew matrix, `v_xsq = v_x @ v_x` and
`c = np.dot(u, normal)`. -/
noncomputable def rotation_matrix_of (u : Vec3) : Mat3 :=
  let normal0 : Vec3 := ⟨0, 0, 1⟩
  let normal_vec := normal0.divScalar (linalg_norm normal0)
  let v := Vec3.cross normal_vec u
  let v_x : Mat3 := ⟨0, -v.z, v.y, v.z, 0, -v.x, -v.y, v.x, 0⟩
  let v_xsq := v_x.mul v_x
  let c := Vec3.dot u normal_vec
  Mat3.eye.add (v_x.add (v_xsq.smul (1 / (1 + c))))

/-- `Complex.generate_substituent_vectors`.  Calls `find_centroid` (whose
state update it inherits) and applies the Rodrigues rotation built from
`bond_length_norm` and the template normal `[0, 0, 1]` to the three stored
triangle rows, then translates by the centroid. -/
noncomputable def generate_substituent_vectors (st : Complex) :
    Complex × (Vec3 × Vec3 × Vec3) :=
  let fc := st.find_centroid
  let st1 := fc.1
  let centroid := fc.2
  let v1 := st1.equilateral_triangle.1
  let v2 := st1.equilateral_triangle.2.1
  let v3 := st1.equilateral_triangle.2.2
  let starting_coordinate : Vec3 := ⟨0, 0, 0⟩
  let rotation_matrix := rotation_matrix_of st1.bond_length_norm
  let s1 := rotation_matrix.mulVec v1
  let s2 := rotation_matrix.mulVec v2
  let s3 := rotation_matrix.mulVec v3
  let s1b := -(starting_coordinate - centroid) + s1
  let s2b := -(starting_coordinate - centroid) + s2
  let s3b := -(starting_coordinate - centroid) + s3
  (st1, (s1b, s2b, s3b))

/-- The denominator `1 + c` of the Rodrigues scaling factor computed inside
`generate_substituent_vectors`, with `c = np.dot(bond_length_norm, normal)`
for the normalised template normal `[0, 0, 1]`. -/
noncomputable def rodrigues_denominator (st : Complex) : ℝ :=
  let normal0 : Vec3 := ⟨0, 0, 1⟩
  let normal_vec := normal0.divScalar (linalg_norm normal0)
  1 + Vec3.dot st.bond_length_norm normal_vec

end Complex

/-- Python `file.readlines()`: split a character sequence into lines, each
line keeping its terminating newline character; a final segment without a
newline is kept as a last line. -/
def splitAfterNl : List Char → List (List Char)
  | [] => []
  | c :: rest =>
    match splitAfterNl rest with
    | [] => [[c]]
    | g :: gs => if c = '\n' then [c] :: g :: gs else (c :: g) :: gs

/-- `line.replace('\r', '').replace('\n', '')`. -/
def removeNewlineChars (g : List Char) : List Char :=
  g.filter (fun c => decide (c ≠ '\n') && decide (c ≠ '\r'))

/-- The post-write pass of `write_xyz` (lines 102-107): read all lines,
strip carriage returns and newlines from the last line, and write the
lines back.  (On an empty file Python would raise an IndexError on
`lines[-1]`; `write_xyz` always writes the header first, so the file is
never empty at this point, and the empty case here is vacuous.) -/
def stripLastPass (cs : List Char) : List Char :=
  let gs := splitAfterNl cs
  gs.dropLast.flatten ++ removeNewlineChars (gs.getLastD [])

/-- One row of the pandas `to_csv(sep=' ', header=False)` output:
the index label and the three coordinates, space-separated, newline
terminated. -/
def rowline (fmt : ℝ → List Char) (label : List Char) (v : Vec3) : List Char :=
  label ++ [' '] ++ fmt v.x ++ [' '] ++ fmt v.y ++ [' '] ++ fmt v.z ++ ['\n']

/-- Characters that survive the final pass: not newline, not carriage return. -/
def NLfree (s : List Char) : Prop := ∀ c ∈ s, c ≠ '\n' ∧ c ≠ '\r'

namespace Complex

/-- `Complex.write_xyz`, modelled as a function from the pre-existing
content of the output file to its content after the call: the file is
opened for append and `4` plus a blank line are written; then the
five-row table (heavy atom, bonded atom, the three substituents computed
by `generate_substituent_vectors`) is appended by `to_csv`; finally the
trailing-newline-stripping pass runs over the whole file.  `fmt` is the
decimal rendering `to_csv` applies to each coordinate. -/
noncomputable def write_xyz (st : Complex) (fmt : ℝ → List Char) (existing : List Char)
    (substituent_1_atom substituent_2_atom substituent_3_atom : List Char) : List Char :=
  let vs := st.generate_substituent_vectors.2
  let afterHeader := existing ++ ['4', '\n'] ++ ['\n']
  let rows :=
    rowline fmt st.atom_to_be_functionalized_label st.atom_to_be_functionalized_xyz ++
    rowline fmt st.bonded_atom_label st.bonded_atom_xyz ++
    rowline fmt substituent_1_atom vs.1 ++
    rowline fmt substituent_2_atom vs.2.1 ++
    rowline fmt substituent_3_atom vs.2.2
  stripLastPass (afterHeader ++ rows)

end Complex

/-! ### Supporting lemmas -/

theorem sub_ne_zero_vec {a h : Vec3} (hne : a ≠ h) : a - h ≠ ⟨0, 0, 0⟩ := by
  intro h0
  apply hne
  have hx := congrArg Vec3.x h0
  have hy := congrArg Vec3.y h0
  have hz := congrArg Vec3.z h0
  simp only [Vec3.sub_def] at hx hy hz
  ext <;> linarith

theorem sumsq_pos {d : Vec3} (hd : d ≠ ⟨0, 0, 0⟩) :
    0 < d.x * d.x + d.y * d.y + d.z * d.z := by
  by_contra hle
  push_neg at hle
  have hx : d.x = 0 := by nlinarith [mul_self_nonneg d.x, mul_self_nonneg d.y, mul_self_nonneg d.z]
  have hy : d.y = 0 := by nlinarith [mul_self_nonneg d.x, mul_self_nonneg d.y, mul_self_nonneg d.z]
  have hz : d.z = 0 := by nlinarith [mul_self_nonneg d.x, mul_self_nonneg d.y, mul_self_nonneg d.z]
  exact hd (by ext <;> simp [hx, hy, hz])

theorem linalg_norm_nonneg (d : Vec3) : 0 ≤ linalg_norm d := Real.sqrt_nonneg _

theorem linalg_norm_pos {d : Vec3} (hd : d ≠ ⟨0, 0, 0⟩) : 0 < linalg_norm d :=
  Real.sqrt_pos.mpr (sumsq_pos hd)

theorem linalg_norm_mul_self (d : Vec3) :
    linalg_norm d * linalg_norm d = d.x * d.x + d.y * d.y + d.z * d.z :=
  Real.mul_self_sqrt
    (by nlinarith [mul_self_nonneg d.x, mul_self_nonneg d.y, mul_self_nonneg d.z])

theorem unit_divScalar {d : Vec3} (hd : d ≠ ⟨0, 0, 0⟩) :
    (d.divScalar (linalg_norm d)).x ^ 2 + (d.divScalar (linalg_norm d)).y ^ 2 +
      (d.divScalar (linalg_norm d)).z ^ 2 = 1 := by
  have hn := linalg_norm_pos hd
  have hm := linalg_norm_mul_self d
  simp only [Vec3.divScalar]
  field_simp
  linear_combination -hm

theorem one_add_z_ne {u : Vec3} (hu : u.x ^ 2 + u.y ^ 2 + u.z ^ 2 = 1)
    (hanti : u ≠ ⟨0, 0, -1⟩) : 1 + u.z ≠ 0 := by
  intro h0
  have hz : u.z = -1 := by linarith
  have hx : u.x = 0 := by nlinarith [sq_nonneg u.x, sq_nonneg u.y]
  have hy : u.y = 0 := by nlinarith [sq_nonneg u.x, sq_nonneg u.y]
  exact hanti (by ext <;> simp [hx, hy, hz])

theorem inv_sqrt3_sq : (Real.sqrt 3)⁻¹ * (Real.sqrt 3)⁻¹ * 3 = 1 := by
  have hs : Real.sqrt 3 * Real.sqrt 3 = 3 := Real.mul_self_sqrt (by norm_num)
  have hne : Real.sqrt 3 ≠ 0 := by positivity
  field_simp


theorem rotation_matrix_of_eval (u : Vec3) :
    Complex.rotation_matrix_of u =
      ⟨1 + -u.x ^ 2 / (1 + u.z), -(u.x * u.y) / (1 + u.z), u.x,
       -(u.x * u.y) / (1 + u.z), 1 + -u.y ^ 2 / (1 + u.z), u.y,
       -u.x, -u.y, 1 + (-u.x ^ 2 + -u.y ^ 2) / (1 + u.z)⟩ := by
  simp only [Complex.rotation_matrix_of, linalg_norm, Vec3.divScalar, Vec3.cross, Vec3.dot,
    Mat3.mul, Mat3.add, Mat3.smul, Mat3.eye]
  norm_num
  refine ⟨?_, ?_, ?_, ?_, ?_⟩ <;> ring

theorem planar_rot_norm (u : Vec3) (hu : u.x ^ 2 + u.y ^ 2 + u.z ^ 2 = 1)
    (hc : 1 + u.z ≠ 0) (w : Vec3) (hw : w.z = 0) :
    ((Complex.rotation_matrix_of u).mulVec w).x * ((Complex.rotation_matrix_of u).mulVec w).x +
      ((Complex.rotation_matrix_of u).mulVec w).y * ((Complex.rotation_matrix_of u).mulVec w).y +
      ((Complex.rotation_matrix_of u).mulVec w).z * ((Complex.rotation_matrix_of u).mulVec w).z =
      w.x * w.x + w.y * w.y := by
  have hp : (1 + u.z)⁻¹ * (1 + u.z) = 1 := inv_mul_cancel₀ hc
  rw [rotation_matrix_of_eval]
  simp only [Mat3.mulVec, hw]
  linear_combination
    ((u.x * w.x + u.y * w.y) ^ 2 * ((1 + u.z)⁻¹ * (1 - u.z) - 1)) * hp +
      (u.x * w.x + u.y * w.y) ^ 2 * ((1 + u.z)⁻¹) ^ 2 * hu

theorem planar_rot_dot (u : Vec3) (hu : u.x ^ 2 + u.y ^ 2 + u.z ^ 2 = 1)
    (hc : 1 + u.z ≠ 0) (w : Vec3) (hw : w.z = 0) :
    Vec3.dot u ((Complex.rotation_matrix_of u).mulVec w) = 0 := by
  have hp : (1 + u.z)⁻¹ * (1 + u.z) = 1 := inv_mul_cancel₀ hc
  rw [rotation_matrix_of_eval]
  simp only [Mat3.mulVec, Vec3.dot, hw]
  linear_combination
    (-((u.x * w.x + u.y * w.y) * (1 - u.z))) * hp +
      (-((u.x * w.x + u.y * w.y) * (1 + u.z)⁻¹)) * hu



theorem mulVec_sub (m : Mat3) (v w : Vec3) :
    m.mulVec (v - w) = m.mulVec v - m.mulVec w := by
  simp only [Mat3.mulVec, Vec3.sub_def]
  ext <;> ring

theorem distance_nonneg (a b : Vec3) : 0 ≤ Complex.distance a b := Real.sqrt_nonneg _

theorem rot_dist (u : Vec3) (hu : u.x ^ 2 + u.y ^ 2 + u.z ^ 2 = 1) (hc : 1 + u.z ≠ 0)
    (w1 w2 : Vec3) (hw1 : w1.z = 0) (hw2 : w2.z = 0) (cen : Vec3) :
    Complex.distance (-((⟨0, 0, 0⟩ : Vec3) - cen) + (Complex.rotation_matrix_of u).mulVec w1)
        (-((⟨0, 0, 0⟩ : Vec3) - cen) + (Complex.rotation_matrix_of u).mulVec w2) =
      Real.sqrt ((w1.x - w2.x) * (w1.x - w2.x) + (w1.y - w2.y) * (w1.y - w2.y)) := by
  have hn := planar_rot_norm u hu hc (w1 - w2) (by simp [Vec3.sub_def, hw1, hw2])
  rw [mulVec_sub] at hn
  simp only [Vec3.sub_def] at hn
  simp only [Complex.distance, Vec3.add_def, Vec3.sub_def, Vec3.neg_def]
  congr 1
  linear_combination hn

theorem rot_apex_dist (u : Vec3) (hu : u.x ^ 2 + u.y ^ 2 + u.z ^ 2 = 1) (hc : 1 + u.z ≠ 0)
    (w : Vec3) (hw : w.z = 0) (aPt : Vec3) (k : ℝ) :
    Complex.distance aPt
        (-((⟨0, 0, 0⟩ : Vec3) - (aPt + k • u)) + (Complex.rotation_matrix_of u).mulVec w) =
      Real.sqrt (k * k + (w.x * w.x + w.y * w.y)) := by
  have hn := planar_rot_norm u hu hc w hw
  have hdot := planar_rot_dot u hu hc w hw
  simp only [Vec3.dot] at hdot
  simp only [Complex.distance, Vec3.add_def, Vec3.sub_def, Vec3.neg_def, Vec3.smul_def]
  congr 1
  linear_combination (k * k) * hu + (2 * k) * hdot + hn

/-- Claim C1 (corrected).  For distinct inputs whose bond direction is not
anti-parallel to the template normal, the three substituent points are
pairwise at distance `2*sqrt(2/3) * b` from one another and each at distance
`(2/3) * (2*sqrt(2/3) * b)` from the heavy atom, where `b` is the
heavy-to-bonded distance; the four points are therefore not a regular
tetrahedron of edge `b` as the original claim states. -/
theorem C1_substituent_distances (l0 l1 : List Char) (a h : Vec3) (hne : a ≠ h)
    (hanti : (Complex.init l0 a l1 h).bond_length_norm ≠ ⟨0, 0, -1⟩) :
    (Complex.distance ((Complex.init l0 a l1 h).generate_substituent_vectors).2.1
        ((Complex.init l0 a l1 h).generate_substituent_vectors).2.2.1 =
      2 * Real.sqrt (2 / 3) * Complex.distance a h) ∧
    (Complex.distance ((Complex.init l0 a l1 h).generate_substituent_vectors).2.1
        ((Complex.init l0 a l1 h).generate_substituent_vectors).2.2.2 =
      2 * Real.sqrt (2 / 3) * Complex.distance a h) ∧
    (Complex.distance ((Complex.init l0 a l1 h).generate_substituent_vectors).2.2.1
        ((Complex.init l0 a l1 h).generate_substituent_vectors).2.2.2 =
      2 * Real.sqrt (2 / 3) * Complex.distance a h) ∧
    (Complex.distance a ((Complex.init l0 a l1 h).generate_substituent_vectors).2.1 =
      2 / 3 * (2 * Real.sqrt (2 / 3) * Complex.distance a h)) ∧
    (Complex.distance a ((Complex.init l0 a l1 h).generate_substituent_vectors).2.2.1 =
      2 / 3 * (2 * Real.sqrt (2 / 3) * Complex.distance a h)) ∧
    (Complex.distance a ((Complex.init l0 a l1 h).generate_substituent_vectors).2.2.2 =
      2 / 3 * (2 * Real.sqrt (2 / 3) * Complex.distance a h)) := by
  have hd : a - h ≠ ⟨0, 0, 0⟩ := sub_ne_zero_vec hne
  have hu : ((a - h).divScalar (linalg_norm (a - h))).x ^ 2 +
      ((a - h).divScalar (linalg_norm (a - h))).y ^ 2 +
      ((a - h).divScalar (linalg_norm (a - h))).z ^ 2 = 1 := unit_divScalar hd
  have hbn : (Complex.init l0 a l1 h).bond_length_norm =
      (a - h).divScalar (linalg_norm (a - h)) := rfl
  rw [hbn] at hanti
  have hc : 1 + ((a - h).divScalar (linalg_norm (a - h))).z ≠ 0 := one_add_z_ne hu hanti
  have hd0 : 0 ≤ Complex.distance a h := distance_nonneg a h
  have ht := inv_sqrt3_sq
  have hee : Complex.distance a h * ((2.0 : ℝ) * Real.sqrt ((2.0 : ℝ) / (3.0 : ℝ))) =
      2 * Real.sqrt (2 / 3) * Complex.distance a h := by norm_num; ring
  have hE0 : 0 ≤ 2 * Real.sqrt (2 / 3) * Complex.distance a h :=
    mul_nonneg (by positivity) hd0
  simp only [Complex.generate_substituent_vectors, Complex.find_centroid, Complex.init]
  rw [hee]
  set u : Vec3 := (a - h).divScalar (linalg_norm (a - h)) with hudef
  set E : ℝ := 2 * Real.sqrt (2 / 3) * Complex.distance a h with hEdef
  have hE23 : 0 ≤ 2 / 3 * E := mul_nonneg (by norm_num) hE0
  refine ⟨?_, ?_, ?_, ?_, ?_, ?_⟩
  · rw [rot_dist u hu hc (E • (⟨0, 1 / Real.sqrt 3, 0⟩ : Vec3))
      (E • (⟨-(0.5 : ℝ), -(0.5 : ℝ) / Real.sqrt 3, 0⟩ : Vec3))
      (by simp [Vec3.smul_def]) (by simp [Vec3.smul_def]) (a + (E / (3.0 : ℝ)) • u)]
    simp only [Vec3.smul_def]
    refine (congrArg Real.sqrt ?_).trans (Real.sqrt_sq hE0)
    linear_combination (3 / 4 * E ^ 2) * ht
  · rw [rot_dist u hu hc (E • (⟨0, 1 / Real.sqrt 3, 0⟩ : Vec3))
      (E • (⟨(0.5 : ℝ), -(0.5 : ℝ) / Real.sqrt 3, 0⟩ : Vec3))
      (by simp [Vec3.smul_def]) (by simp [Vec3.smul_def]) (a + (E / (3.0 : ℝ)) • u)]
    simp only [Vec3.smul_def]
    refine (congrArg Real.sqrt ?_).trans (Real.sqrt_sq hE0)
    linear_combination (3 / 4 * E ^ 2) * ht
  · rw [rot_dist u hu hc (E • (⟨-(0.5 : ℝ), -(0.5 : ℝ) / Real.sqrt 3, 0⟩ : Vec3))
      (E • (⟨(0.5 : ℝ), -(0.5 : ℝ) / Real.sqrt 3, 0⟩ : Vec3))
      (by simp [Vec3.smul_def]) (by simp [Vec3.smul_def]) (a + (E / (3.0 : ℝ)) • u)]
    simp only [Vec3.smul_def]
    refine (congrArg Real.sqrt ?_).trans (Real.sqrt_sq hE0)
    linear_combination (0 : ℝ) * ht
  · rw [rot_apex_dist u hu hc (E • (⟨0, 1 / Real.sqrt 3, 0⟩ : Vec3))
      (by simp [Vec3.smul_def]) a (E / (3.0 : ℝ))]
    simp only [Vec3.smul_def]
    refine (congrArg Real.sqrt ?_).trans (Real.sqrt_sq hE23)
    linear_combination (E ^ 2 / 3) * ht
  · rw [rot_apex_dist u hu hc (E • (⟨-(0.5 : ℝ), -(0.5 : ℝ) / Real.sqrt 3, 0⟩ : Vec3))
      (by simp [Vec3.smul_def]) a (E / (3.0 : ℝ))]
    simp only [Vec3.smul_def]
    refine (congrArg Real.sqrt ?_).trans (Real.sqrt_sq hE23)
    linear_combination (E ^ 2 / 12) * ht
  · rw [rot_apex_dist u hu hc (E • (⟨(0.5 : ℝ), -(0.5 : ℝ) / Real.sqrt 3, 0⟩ : Vec3))
      (by simp [Vec3.smul_def]) a (E / (3.0 : ℝ))]
    simp only [Vec3.smul_def]
    refine (congrArg Real.sqrt ?_).trans (Real.sqrt_sq hE23)
    linear_combination (E ^ 2 / 12) * ht

theorem generate_up_eval (l0 l1 : List Char) :
    (Complex.init l0 ⟨0, 0, 0⟩ l1 ⟨0, 0, -1⟩).generate_substituent_vectors =
      ({ atom_to_be_functionalized_label := l0, atom_to_be_functionalized_xyz := ⟨0, 0, 0⟩,
         bonded_atom_label := l1, bonded_atom_xyz := ⟨0, 0, -1⟩,
         bond_length := ⟨0, 0, 1⟩, bond_length_norm := ⟨0, 0, 1⟩,
         equilateral_triangle :=
           (⟨0, 2 * (Real.sqrt 2 / Real.sqrt 3) * (Real.sqrt 3)⁻¹, 0⟩,
            ⟨-(2 * (Real.sqrt 2 / Real.sqrt 3) * (1 / 2)),
             2 * (Real.sqrt 2 / Real.sqrt 3) * (-(1 / 2) / Real.sqrt 3), 0⟩,
            ⟨2 * (Real.sqrt 2 / Real.sqrt 3) * (1 / 2),
             2 * (Real.sqrt 2 / Real.sqrt 3) * (-(1 / 2) / Real.sqrt 3), 0⟩) },
       (⟨0, 2 * (Real.sqrt 2 / Real.sqrt 3) * (Real.sqrt 3)⁻¹,
         2 * (Real.sqrt 2 / Real.sqrt 3) / 3⟩,
        ⟨-(2 * (Real.sqrt 2 / Real.sqrt 3) * (1 / 2)),
         2 * (Real.sqrt 2 / Real.sqrt 3) * (-(1 / 2) / Real.sqrt 3),
         2 * (Real.sqrt 2 / Real.sqrt 3) / 3⟩,
        ⟨2 * (Real.sqrt 2 / Real.sqrt 3) * (1 / 2),
         2 * (Real.sqrt 2 / Real.sqrt 3) * (-(1 / 2) / Real.sqrt 3),
         2 * (Real.sqrt 2 / Real.sqrt 3) / 3⟩)) := by
  simp only [Complex.generate_substituent_vectors, Complex.find_centroid, Complex.init,
    Complex.distance, Complex.rotation_matrix_of, linalg_norm, Vec3.add_def, Vec3.sub_def,
    Vec3.neg_def, Vec3.smul_def, Vec3.divScalar, Vec3.dot, Vec3.cross, Mat3.add, Mat3.mul,
    Mat3.smul, Mat3.eye, Mat3.mulVec]
  norm_num

/-- Claim C1 counterexample.  At heavy atom `(0,0,0)` and bonded atom
`(0,0,-1)` (bond length 1), the distance between the first two substituents
is not the bond length. -/
theorem C1_counterexample :
    Complex.distance
        ((Complex.init ('C' :: []) ⟨0, 0, 0⟩ ('H' :: []) ⟨0, 0, -1⟩).generate_substituent_vectors).2.1
        ((Complex.init ('C' :: []) ⟨0, 0, 0⟩ ('H' :: []) ⟨0, 0, -1⟩).generate_substituent_vectors).2.2.1 ≠
      Complex.distance ⟨0, 0, 0⟩ ⟨0, 0, -1⟩ := by
  rw [generate_up_eval]
  have h2 : Real.sqrt 2 * Real.sqrt 2 = 2 := Real.mul_self_sqrt (by norm_num)
  have h3 : Real.sqrt 3 * Real.sqrt 3 = 3 := Real.mul_self_sqrt (by norm_num)
  have h3ne : Real.sqrt 3 ≠ 0 := by positivity
  simp only [Complex.distance, Vec3.sub_def]
  norm_num
  have ht := inv_sqrt3_sq
  rw [show 2 * (Real.sqrt 2 / Real.sqrt 3) * (1 / 2) * (2 * (Real.sqrt 2 / Real.sqrt 3) * (1 / 2)) +
      (2 * (Real.sqrt 2 / Real.sqrt 3) * (Real.sqrt 3)⁻¹ -
          2 * (Real.sqrt 2 / Real.sqrt 3) * (-(1 / 2) / Real.sqrt 3)) *
        (2 * (Real.sqrt 2 / Real.sqrt 3) * (Real.sqrt 3)⁻¹ -
          2 * (Real.sqrt 2 / Real.sqrt 3) * (-(1 / 2) / Real.sqrt 3)) = (8 : ℝ) / 3 from by
    linear_combination (((Real.sqrt 3)⁻¹) ^ 2 + 9 * ((Real.sqrt 3)⁻¹) ^ 4) * h2 +
      (6 * ((Real.sqrt 3)⁻¹) ^ 2 + 8 / 3) * ht]
  norm_num

/-- Claim C2 (corrected).  `find_centroid` returns
`heavy + (B/3) * u` with `B = 2*sqrt(2/3) * b`, not `heavy + (b/3) * u`;
in particular with heavy `(0,0,0)` and bonded `(0,0,1)` the centroid is
`(0, 0, -(2*sqrt(2/3)/3))`, not `(0, 0, 1/3)`. -/
theorem C2_centroid_formula (l0 l1 : List Char) (a h : Vec3) (hne : a ≠ h) :
    ((Complex.init l0 a l1 h).find_centroid).2 =
      a + (2 * Real.sqrt (2 / 3) * Complex.distance a h / 3) •
        ((a - h).divScalar (Complex.distance a h)) ∧
    ((Complex.init l0 ⟨0, 0, 0⟩ l1 ⟨0, 0, 1⟩).find_centroid).2 =
      ⟨0, 0, -(2 * Real.sqrt (2 / 3) / 3)⟩ := by
  constructor
  case right =>
    simp only [Complex.find_centroid, Complex.init, Complex.distance, linalg_norm,
      Vec3.add_def, Vec3.sub_def, Vec3.smul_def, Vec3.divScalar]
    ext <;> norm_num
  simp only [Complex.find_centroid, Complex.init]
  have hdl : Complex.distance a h = linalg_norm (a - h) := rfl
  rw [hdl, show ((2.0 : ℝ) * Real.sqrt ((2.0 : ℝ) / (3.0 : ℝ))) = 2 * Real.sqrt (2 / 3) from by
    norm_num]
  ext <;> simp only [Vec3.add_def, Vec3.smul_def, Vec3.divScalar] <;> ring

/-- Claim C2 counterexample.  With heavy atom `(0,0,0)` and bonded atom
`(0,0,1)` the returned centroid is not `(0,0,1/3)`. -/
theorem C2_counterexample :
    ((Complex.init ('C' :: []) ⟨0, 0, 0⟩ ('H' :: []) ⟨0, 0, 1⟩).find_centroid).2 ≠
      ⟨0, 0, 1 / 3⟩ := by
  intro heq
  have hz := congrArg Vec3.z heq
  simp only [Complex.find_centroid, Complex.init, Complex.distance, linalg_norm,
    Vec3.add_def, Vec3.sub_def, Vec3.smul_def, Vec3.divScalar] at hz
  norm_num at hz
  have hq : 0 < Real.sqrt 2 / Real.sqrt 3 := by positivity
  nlinarith [hz, hq]

/-- Claim C10 (confirmed).  For distinct inputs with bond direction not
anti-parallel to the template normal, the arithmetic mean of the three
returned substituent points is the point returned by `find_centroid`. -/
theorem C10_mean_is_centroid (l0 l1 : List Char) (a h : Vec3) (hne : a ≠ h)
    (hanti : (Complex.init l0 a l1 h).bond_length_norm ≠ ⟨0, 0, -1⟩) :
    (1 / 3 : ℝ) •
        (((Complex.init l0 a l1 h).generate_substituent_vectors).2.1 +
          ((Complex.init l0 a l1 h).generate_substituent_vectors).2.2.1 +
          ((Complex.init l0 a l1 h).generate_substituent_vectors).2.2.2) =
      ((Complex.init l0 a l1 h).find_centroid).2 := by
  simp only [Complex.generate_substituent_vectors, Complex.find_centroid, Complex.init]
  ext <;>
    simp only [Vec3.add_def, Vec3.sub_def, Vec3.neg_def, Vec3.smul_def, Mat3.mulVec] <;>
    ring

/-- Claim C3 (code bug).  With the bond direction exactly anti-parallel to
the template normal (heavy `(0,0,0)`, bonded `(0,0,1)`, so `u = (0,0,-1)`),
the denominator `1 + c` of the Rodrigues scaling computed by the code is
zero — there is no special-case branch — and the computed matrix degenerates
(here, with the reals' division-by-zero convention, to the identity rather
than any 180-degree rotation; in floating point the entries are NaN). -/
theorem C3_antiparallel_denominator_zero :
    Complex.rodrigues_denominator
        (Complex.init ('C' :: []) ⟨0, 0, 0⟩ ('H' :: []) ⟨0, 0, 1⟩) = 0 ∧
    Complex.rotation_matrix_of
        (Complex.init ('C' :: []) ⟨0, 0, 0⟩ ('H' :: []) ⟨0, 0, 1⟩).bond_length_norm =
      Mat3.eye := by
  constructor
  · simp only [Complex.rodrigues_denominator, Complex.init, linalg_norm, Vec3.divScalar,
      Vec3.sub_def, Vec3.dot]
    norm_num
  · simp only [Complex.init, Complex.rotation_matrix_of, linalg_norm, Vec3.divScalar,
      Vec3.sub_def, Vec3.dot, Vec3.cross, Mat3.mul, Mat3.add, Mat3.smul, Mat3.eye]
    norm_num

/-- Claim C4 (code bug).  For coincident input atoms the constructor does
not fail: it returns a state whose bond vector is zero, whose norm is zero,
and whose normalised bond direction is the division-by-zero artefact (zero
vector here, NaN in floating point).  No `DegenerateBondError` exists in the
code. -/
theorem C4_degenerate_bond_no_error :
    (Complex.init ('C' :: []) ⟨0, 0, 0⟩ ('H' :: []) ⟨0, 0, 0⟩).bond_length = ⟨0, 0, 0⟩ ∧
    linalg_norm ((Complex.init ('C' :: []) ⟨0, 0, 0⟩ ('H' :: []) ⟨0, 0, 0⟩).bond_length) = 0 ∧
    (Complex.init ('C' :: []) ⟨0, 0, 0⟩ ('H' :: []) ⟨0, 0, 0⟩).bond_length_norm = ⟨0, 0, 0⟩ := by
  refine ⟨?_, ?_, ?_⟩ <;>
    simp only [Complex.init, linalg_norm, Vec3.sub_def, Vec3.divScalar] <;> norm_num

theorem generate_up_eval2 (l0 l1 : List Char) :
    (Complex.generate_substituent_vectors
      { atom_to_be_functionalized_label := l0, atom_to_be_functionalized_xyz := ⟨0, 0, 0⟩,
        bonded_atom_label := l1, bonded_atom_xyz := ⟨0, 0, -1⟩,
        bond_length := ⟨0, 0, 1⟩, bond_length_norm := ⟨0, 0, 1⟩,
        equilateral_triangle :=
          (⟨0, 2 * (Real.sqrt 2 / Real.sqrt 3) * (Real.sqrt 3)⁻¹, 0⟩,
           ⟨-(2 * (Real.sqrt 2 / Real.sqrt 3) * (1 / 2)),
            2 * (Real.sqrt 2 / Real.sqrt 3) * (-(1 / 2) / Real.sqrt 3), 0⟩,
           ⟨2 * (Real.sqrt 2 / Real.sqrt 3) * (1 / 2),
            2 * (Real.sqrt 2 / Real.sqrt 3) * (-(1 / 2) / Real.sqrt 3), 0⟩) }).2.1 =
      ⟨0, 2 * (Real.sqrt 2 / Real.sqrt 3) * (2 * (Real.sqrt 2 / Real.sqrt 3) * (Real.sqrt 3)⁻¹),
       2 * (Real.sqrt 2 / Real.sqrt 3) / 3⟩ := by
  simp only [Complex.generate_substituent_vectors, Complex.find_centroid, Complex.init,
    Complex.distance, Complex.rotation_matrix_of, linalg_norm, Vec3.add_def, Vec3.sub_def,
    Vec3.neg_def, Vec3.smul_def, Vec3.divScalar, Vec3.dot, Vec3.cross, Mat3.add, Mat3.mul,
    Mat3.smul, Mat3.eye, Mat3.mulVec]
  norm_num

/-- Claim C5 (corrected).  A call of `generate_substituent_vectors` is
deterministic in the state, but it is not free of side effects: the stored
`equilateral_triangle` template is rescaled by `2*sqrt(2/3) * b` by the
embedded `find_centroid` call. -/
theorem C5_template_mutation (l0 l1 : List Char) (a h : Vec3) :
    ((Complex.init l0 a l1 h).generate_substituent_vectors).1.equilateral_triangle =
      ((2 * Real.sqrt (2 / 3) * Complex.distance a h) • (⟨0, 1 / Real.sqrt 3, 0⟩ : Vec3),
       (2 * Real.sqrt (2 / 3) * Complex.distance a h) •
         (⟨-(0.5 : ℝ), -(0.5 : ℝ) / Real.sqrt 3, 0⟩ : Vec3),
       (2 * Real.sqrt (2 / 3) * Complex.distance a h) •
         (⟨(0.5 : ℝ), -(0.5 : ℝ) / Real.sqrt 3, 0⟩ : Vec3)) := by
  simp only [Complex.generate_substituent_vectors, Complex.find_centroid, Complex.init]
  rw [show Complex.distance a h * ((2.0 : ℝ) * Real.sqrt ((2.0 : ℝ) / (3.0 : ℝ))) =
      2 * Real.sqrt (2 / 3) * Complex.distance a h from by norm_num; ring]

/-- Claim C5 counterexample.  Calling `generate_substituent_vectors` twice
on the same object with unchanged input positions gives different first
substituent positions, because the first call rescaled the stored
template. -/
theorem C5_counterexample :
    (((Complex.init ('C' :: []) ⟨0, 0, 0⟩ ('H' :: []) ⟨0, 0, -1⟩).generate_substituent_vectors).1.generate_substituent_vectors).2.1 ≠
      ((Complex.init ('C' :: []) ⟨0, 0, 0⟩ ('H' :: []) ⟨0, 0, -1⟩).generate_substituent_vectors).2.1 := by
  rw [generate_up_eval]
  rw [generate_up_eval2]
  intro heq
  have hy := congrArg Vec3.y heq
  simp only at hy
  have h2 : Real.sqrt 2 * Real.sqrt 2 = 2 := Real.mul_self_sqrt (by norm_num)
  have h3 : Real.sqrt 3 * Real.sqrt 3 = 3 := Real.mul_self_sqrt (by norm_num)
  have htpos : 0 < (Real.sqrt 3)⁻¹ := by positivity
  have hq2 : Real.sqrt 2 / Real.sqrt 3 * (Real.sqrt 2 / Real.sqrt 3) = 2 / 3 := by
    rw [div_mul_div_comm, h2, h3]
  have hstep : ((8 : ℝ) / 3) * (Real.sqrt 3)⁻¹ =
      (2 * (Real.sqrt 2 / Real.sqrt 3)) * (Real.sqrt 3)⁻¹ := by
    linear_combination hy + (-4 * (Real.sqrt 3)⁻¹) * hq2
  have hq43 : (8 : ℝ) / 3 = 2 * (Real.sqrt 2 / Real.sqrt 3) :=
    mul_right_cancel₀ (ne_of_gt htpos) hstep
  nlinarith [hq43, hq2]

theorem mulVec_dist_invariant (Q : Mat3) (hQ : Q.transpose.mul Q = Mat3.eye) (d : Vec3) :
    (Q.mulVec d).x * (Q.mulVec d).x + (Q.mulVec d).y * (Q.mulVec d).y +
      (Q.mulVec d).z * (Q.mulVec d).z = d.x * d.x + d.y * d.y + d.z * d.z := by
  simp only [Mat3.transpose, Mat3.mul, Mat3.eye, Mat3.mk.injEq] at hQ
  obtain ⟨g11, g12, g13, g21, g22, g23, g31, g32, g33⟩ := hQ
  simp only [Mat3.mulVec]
  linear_combination (d.x * d.x) * g11 + (d.y * d.y) * g22 + (d.z * d.z) * g33 +
    (2 * d.x * d.y) * g12 + (2 * d.x * d.z) * g13 + (2 * d.y * d.z) * g23

/-- Claim C6 (corrected).  The full substituent computation does not commute
with rotations (see the counterexample), but the centroid stage does: for
any orthogonal `Q`, computing the centroid from the `Q`-rotated inputs gives
the `Q`-rotation of the original centroid. -/
theorem C6_centroid_rotation_equivariance (l0 l1 : List Char) (a h : Vec3) (Q : Mat3)
    (hQ : Q.transpose.mul Q = Mat3.eye) :
    ((Complex.init l0 (Q.mulVec a) l1 (Q.mulVec h)).find_centroid).2 =
      Q.mulVec (((Complex.init l0 a l1 h).find_centroid).2) := by
  have hlin : Q.mulVec a - Q.mulVec h = Q.mulVec (a - h) := (mulVec_sub Q a h).symm
  have hdisteq : Complex.distance (Q.mulVec a) (Q.mulVec h) = Complex.distance a h := by
    simp only [Complex.distance]
    rw [hlin]
    exact congrArg Real.sqrt (mulVec_dist_invariant Q hQ (a - h))
  have hnormeq : linalg_norm (Q.mulVec a - Q.mulVec h) = linalg_norm (a - h) := by
    rw [hlin]
    exact congrArg Real.sqrt (mulVec_dist_invariant Q hQ (a - h))
  simp only [Complex.find_centroid, Complex.init]
  rw [hlin, hdisteq]
  rw [show (Q.mulVec (a - h)).divScalar (linalg_norm (Q.mulVec (a - h))) =
      (Q.mulVec (a - h)).divScalar (linalg_norm (a - h)) from by rw [← hlin, hnormeq]]
  ext <;> simp only [Vec3.add_def, Vec3.smul_def, Vec3.divScalar, Mat3.mulVec] <;> ring

/-- Claim C6 counterexample.  The quarter-turn about the z axis is a
rotation fixing both input atoms `(0,0,0)` and `(0,0,-1)`, so the computed
substituents from the rotated inputs are unchanged — but they are not the
rotation of the original substituents. -/
theorem C6_counterexample :
    ((⟨0, -1, 0, 1, 0, 0, 0, 0, 1⟩ : Mat3).transpose.mul ⟨0, -1, 0, 1, 0, 0, 0, 0, 1⟩ =
      Mat3.eye) ∧
    (⟨0, -1, 0, 1, 0, 0, 0, 0, 1⟩ : Mat3).mulVec ⟨0, 0, 0⟩ = ⟨0, 0, 0⟩ ∧
    (⟨0, -1, 0, 1, 0, 0, 0, 0, 1⟩ : Mat3).mulVec ⟨0, 0, -1⟩ = ⟨0, 0, -1⟩ ∧
    ((Complex.init ('C' :: [])
          ((⟨0, -1, 0, 1, 0, 0, 0, 0, 1⟩ : Mat3).mulVec ⟨0, 0, 0⟩) ('H' :: [])
          ((⟨0, -1, 0, 1, 0, 0, 0, 0, 1⟩ : Mat3).mulVec ⟨0, 0, -1⟩)).generate_substituent_vectors).2.1 ≠
      (⟨0, -1, 0, 1, 0, 0, 0, 0, 1⟩ : Mat3).mulVec
        (((Complex.init ('C' :: []) ⟨0, 0, 0⟩
            ('H' :: []) ⟨0, 0, -1⟩).generate_substituent_vectors).2.1) := by
  refine ⟨?_, ?_, ?_, ?_⟩
  · simp only [Mat3.transpose, Mat3.mul, Mat3.eye]
    norm_num
  · simp only [Mat3.mulVec]
    norm_num
  · simp only [Mat3.mulVec]
    norm_num
  · rw [show (⟨0, -1, 0, 1, 0, 0, 0, 0, 1⟩ : Mat3).mulVec ⟨0, 0, 0⟩ = ⟨0, 0, 0⟩ from by
      simp only [Mat3.mulVec]; norm_num]
    rw [show (⟨0, -1, 0, 1, 0, 0, 0, 0, 1⟩ : Mat3).mulVec ⟨0, 0, -1⟩ = ⟨0, 0, -1⟩ from by
      simp only [Mat3.mulVec]; norm_num]
    rw [generate_up_eval]
    intro heq
    have hy := congrArg Vec3.y heq
    simp only [Mat3.mulVec] at hy
    norm_num at hy

theorem splitAfterNl_ne_nil {t : List Char} (ht : t ≠ []) : splitAfterNl t ≠ [] := by
  cases t with
  | nil => exact absurd rfl ht
  | cons c rest =>
    rw [splitAfterNl]
    rcases splitAfterNl rest with _ | ⟨g, gs⟩
    · simp
    · by_cases hc : c = '\n' <;> simp [hc]

theorem count_nl_le_groups (s : List Char) : s.count '\n' ≤ (splitAfterNl s).length := by
  induction s with
  | nil => simp [splitAfterNl]
  | cons c t ih =>
    rw [splitAfterNl, List.count_cons]
    rcases hsp : splitAfterNl t with _ | ⟨g, gs⟩
    · rw [hsp] at ih
      simp only [List.length_nil, Nat.le_zero] at ih
      rcases t with _ | ⟨d, t2⟩
      · by_cases hc : c = '\n' <;> simp [hc]
      · exact absurd hsp (splitAfterNl_ne_nil (by simp))
    · rw [hsp] at ih
      by_cases hc : c = '\n'
      · simp only [hc, if_pos rfl]
        simp only [List.length_cons] at ih ⊢
        simp [hc]
        omega
      · simp only [List.length_cons] at ih ⊢
        have : ('\n' == c) = false := by
          simp [BEq.beq]
          exact fun hh => hc hh.symm
        simp [this, hc]
        omega

theorem stripLastPass_cons_two (c : Char) (t : List Char)
    (h2 : 2 ≤ (splitAfterNl t).length) :
    stripLastPass (c :: t) = c :: stripLastPass t := by
  rcases hsp : splitAfterNl t with _ | ⟨g, gs⟩
  · rw [hsp] at h2; simp at h2
  · rcases gs with _ | ⟨g2, gs2⟩
    · rw [hsp] at h2; simp at h2
    · unfold stripLastPass
      rw [splitAfterNl, hsp]
      by_cases hc : c = '\n'
      · simp [hc, List.dropLast, List.flatten]
      · simp [hc, List.dropLast, List.flatten]

theorem stripLastPass_append (E X : List Char) (hX : 2 ≤ X.count '\n') :
    stripLastPass (E ++ X) = E ++ stripLastPass X := by
  induction E with
  | nil => simp
  | cons c E2 ih =>
    have hcount : 2 ≤ (E2 ++ X).count '\n' := by
      rw [List.count_append]
      omega
    have hlen : 2 ≤ (splitAfterNl (E2 ++ X)).length :=
      le_trans hcount (count_nl_le_groups (E2 ++ X))
    rw [List.cons_append, stripLastPass_cons_two c (E2 ++ X) hlen, ih, List.cons_append]

theorem NLfree_append {a b : List Char} (ha : NLfree a) (hb : NLfree b) : NLfree (a ++ b) := by
  intro c hc
  rcases List.mem_append.mp hc with h | h
  · exact ha c h
  · exact hb c h

theorem NLfree.count_nl {s : List Char} (h : NLfree s) : s.count '\n' = 0 := by
  rw [List.count_eq_zero]
  intro hmem
  exact (h _ hmem).1 rfl

theorem removeNewlineChars_of_NLfree {s : List Char} (h : NLfree s) :
    removeNewlineChars (s ++ ['\n']) = s := by
  unfold removeNewlineChars
  rw [List.filter_append]
  have h1 : List.filter (fun c => decide (c ≠ '\n') && decide (c ≠ '\r')) s = s := by
    rw [List.filter_eq_self]
    intro c hc
    simp [decide_eq_true_eq, (h c hc).1, (h c hc).2]
  have h2 : List.filter (fun c => decide (c ≠ '\n') && decide (c ≠ '\r')) ['\n'] = [] := by
    simp
  rw [h1, h2, List.append_nil]

theorem splitAfterNl_last {R : List Char} (hR : NLfree R) :
    splitAfterNl (R ++ ['\n']) = [R ++ ['\n']] := by
  induction R with
  | nil => simp [splitAfterNl]
  | cons c R2 ih =>
    have hc : c ≠ '\n' := (hR c (by simp)).1
    have hR2 : NLfree R2 := fun d hd => hR d (by simp [hd])
    rw [List.cons_append, splitAfterNl, ih hR2]
    simp [hc]

theorem splitAfterNl_line {R : List Char} (rest : List Char) (hR : NLfree R)
    (hrest : rest ≠ []) :
    splitAfterNl (R ++ '\n' :: rest) = (R ++ ['\n']) :: splitAfterNl rest := by
  induction R with
  | nil =>
    rw [List.nil_append, splitAfterNl]
    rcases hsp : splitAfterNl rest with _ | ⟨g, gs⟩
    · exact absurd hsp (splitAfterNl_ne_nil hrest)
    · simp
  | cons c R2 ih =>
    have hc : c ≠ '\n' := (hR c (by simp)).1
    have hR2 : NLfree R2 := fun d hd => hR d (by simp [hd])
    rw [List.cons_append, splitAfterNl, ih hR2]
    simp [hc]

theorem stripLastPass_pair (A B : List Char) (hA : NLfree A) (hB : NLfree B) :
    stripLastPass ((A ++ ['\n']) ++ (B ++ ['\n'])) = (A ++ ['\n']) ++ B := by
  have hsp : splitAfterNl ((A ++ ['\n']) ++ (B ++ ['\n'])) =
      (A ++ ['\n']) :: [B ++ ['\n']] := by
    rw [List.append_assoc, List.singleton_append]
    rw [splitAfterNl_line (B ++ ['\n']) hA (by simp), splitAfterNl_last hB]
  unfold stripLastPass
  rw [hsp]
  dsimp only
  have hdrop : ([A ++ ['\n'], B ++ ['\n']] : List (List Char)).dropLast = [A ++ ['\n']] := rfl
  have hlast : ([A ++ ['\n'], B ++ ['\n']] : List (List Char)).getLastD [] = B ++ ['\n'] := rfl
  rw [hdrop, hlast, removeNewlineChars_of_NLfree hB]
  simp

/-- Claim C9 (confirmed).  `write_xyz` appends: for every pre-existing
content, the resulting file is exactly the old content followed by what the
call writes on an empty file, so the old content is an unchanged prefix. -/
theorem C9_append_preserves_existing (st : Complex) (fmt : ℝ → List Char) (existing : List Char)
    (s1l s2l s3l : List Char) :
    st.write_xyz fmt existing s1l s2l s3l = existing ++ st.write_xyz fmt [] s1l s2l s3l := by
  simp only [Complex.write_xyz, List.nil_append]
  generalize (rowline fmt st.atom_to_be_functionalized_label st.atom_to_be_functionalized_xyz ++
      rowline fmt st.bonded_atom_label st.bonded_atom_xyz ++
      rowline fmt s1l st.generate_substituent_vectors.2.1 ++
      rowline fmt s2l st.generate_substituent_vectors.2.2.1 ++
      rowline fmt s3l st.generate_substituent_vectors.2.2.2) = rows
  have hX : 2 ≤ (('4' :: '\n' :: '\n' :: rows).count '\n') := by
    simp [List.count_cons]
  have hkey := stripLastPass_append existing ('4' :: '\n' :: '\n' :: rows) hX
  simp only [List.cons_append, List.nil_append] at hkey ⊢
  rw [show existing ++ ['4', '\n'] ++ ['\n'] ++ rows =
      existing ++ '4' :: '\n' :: '\n' :: rows from by simp]
  exact hkey

theorem NLfree_space : NLfree [' '] := by
  intro c hc
  simp only [List.mem_singleton] at hc
  subst hc
  exact ⟨by decide, by decide⟩

theorem count_nl_row {A : List Char} (hA : NLfree A) : (A ++ ['\n']).count '\n' = 1 := by
  rw [List.count_append, hA.count_nl]
  rfl

theorem rowline_dropLast (fmt : ℝ → List Char) (lab : List Char) (v : Vec3) :
    (rowline fmt lab v).dropLast =
      lab ++ [' '] ++ fmt v.x ++ [' '] ++ fmt v.y ++ [' '] ++ fmt v.z := by
  simp only [rowline]
  rw [List.dropLast_concat]

/-- Claim C8 (confirmed, for an initially empty file).  The written content
starts with the lines `4` and an empty line, followed by the whitespace
separated rows for the heavy atom, the bonded atom and the three
substituents, in that order, with no trailing newline after the last row
(assuming the labels and the rendered numbers contain no newline or
carriage-return characters). -/
theorem C8_output_layout (l0 l1 s1l s2l s3l : List Char) (p0 p1 : Vec3) (fmt : ℝ → List Char)
    (hfmt : ∀ r, NLfree (fmt r)) (hl0 : NLfree l0) (hl1 : NLfree l1)
    (hs1 : NLfree s1l) (hs2 : NLfree s2l) (hs3 : NLfree s3l) :
    (Complex.init l0 p0 l1 p1).write_xyz fmt [] s1l s2l s3l =
      '4' :: '\n' :: '\n' ::
        (rowline fmt l0 p0 ++
         rowline fmt l1 p1 ++
         rowline fmt s1l ((Complex.init l0 p0 l1 p1).generate_substituent_vectors).2.1 ++
         rowline fmt s2l ((Complex.init l0 p0 l1 p1).generate_substituent_vectors).2.2.1 ++
         (rowline fmt s3l
           ((Complex.init l0 p0 l1 p1).generate_substituent_vectors).2.2.2).dropLast) := by
  have hcore : ∀ (lab : List Char), NLfree lab → ∀ v : Vec3,
      NLfree (lab ++ [' '] ++ fmt v.x ++ [' '] ++ fmt v.y ++ [' '] ++ fmt v.z) :=
    fun lab hlab v =>
      NLfree_append (NLfree_append (NLfree_append (NLfree_append (NLfree_append
        (NLfree_append hlab NLfree_space) (hfmt _)) NLfree_space) (hfmt _)) NLfree_space)
        (hfmt _)
  set st := Complex.init l0 p0 l1 p1 with hst
  have hlab0 : st.atom_to_be_functionalized_label = l0 := rfl
  have hxyz0 : st.atom_to_be_functionalized_xyz = p0 := rfl
  have hlab1 : st.bonded_atom_label = l1 := rfl
  have hxyz1 : st.bonded_atom_xyz = p1 := rfl
  simp only [Complex.write_xyz, List.nil_append, hlab0, hxyz0, hlab1, hxyz1]
  rw [rowline_dropLast]
  have hX : 2 ≤ ((rowline fmt s2l st.generate_substituent_vectors.2.2.1 ++
      rowline fmt s3l st.generate_substituent_vectors.2.2.2).count '\n') := by
    rw [List.count_append]
    simp only [rowline]
    rw [count_nl_row (hcore s2l hs2 _), count_nl_row (hcore s3l hs3 _)]
  have hkey := stripLastPass_append
    ('4' :: '\n' :: '\n' ::
      (rowline fmt l0 p0 ++ rowline fmt l1 p1 ++
        rowline fmt s1l st.generate_substituent_vectors.2.1))
    (rowline fmt s2l st.generate_substituent_vectors.2.2.1 ++
      rowline fmt s3l st.generate_substituent_vectors.2.2.2) hX
  simp only [List.cons_append, List.nil_append, List.append_assoc] at hkey ⊢
  rw [hkey]
  simp only [rowline]
  rw [stripLastPass_pair _ _ (hcore s2l hs2 _) (hcore s3l hs3 _)]
  simp [List.append_assoc, List.dropLast_concat]

/-- Claim C1 witness: the amended theorem applied at heavy `(0,0,0)`,
bonded `(0,0,-1)`. -/
theorem C1_witness :
    ((⟨0, 0, 0⟩ : Vec3) ≠ (⟨0, 0, -1⟩ : Vec3)) ∧
    ((Complex.init ('C' :: []) ⟨0, 0, 0⟩ ('H' :: []) ⟨0, 0, -1⟩).bond_length_norm ≠
      ⟨0, 0, -1⟩) ∧
    Complex.distance
        ((Complex.init ('C' :: []) ⟨0, 0, 0⟩
          ('H' :: []) ⟨0, 0, -1⟩).generate_substituent_vectors).2.1
        ((Complex.init ('C' :: []) ⟨0, 0, 0⟩
          ('H' :: []) ⟨0, 0, -1⟩).generate_substituent_vectors).2.2.1 =
      2 * Real.sqrt (2 / 3) * Complex.distance ⟨0, 0, 0⟩ ⟨0, 0, -1⟩ := by
  have h1 : (⟨0, 0, 0⟩ : Vec3) ≠ (⟨0, 0, -1⟩ : Vec3) := by
    intro heq
    have hz := congrArg Vec3.z heq
    norm_num at hz
  have h2 : (Complex.init ('C' :: []) ⟨0, 0, 0⟩ ('H' :: []) ⟨0, 0, -1⟩).bond_length_norm ≠
      ⟨0, 0, -1⟩ := by
    intro heq
    have hz := congrArg Vec3.z heq
    simp only [Complex.init, Vec3.sub_def, Vec3.divScalar, linalg_norm] at hz
    norm_num at hz
  exact ⟨h1, h2, (C1_substituent_distances ('C' :: []) ('H' :: []) ⟨0, 0, 0⟩ ⟨0, 0, -1⟩ h1 h2).1⟩

/-- Claim C2 witness: the amended theorem applied at heavy `(0,0,0)`,
bonded `(0,0,1)`. -/
theorem C2_witness :
    ((⟨0, 0, 0⟩ : Vec3) ≠ (⟨0, 0, 1⟩ : Vec3)) ∧
    ((Complex.init ('C' :: []) ⟨0, 0, 0⟩ ('H' :: []) ⟨0, 0, 1⟩).find_centroid).2 =
      ⟨0, 0, -(2 * Real.sqrt (2 / 3) / 3)⟩ := by
  have h1 : (⟨0, 0, 0⟩ : Vec3) ≠ (⟨0, 0, 1⟩ : Vec3) := by
    intro heq
    have hz := congrArg Vec3.z heq
    norm_num at hz
  exact ⟨h1, (C2_centroid_formula ('C' :: []) ('H' :: []) ⟨0, 0, 0⟩ ⟨0, 0, 1⟩ h1).2⟩

/-- Claim C6 witness: centroid equivariance applied to the z-axis
quarter-turn at heavy `(1,2,3)`, bonded `(0,0,-1)`. -/
theorem C6_witness :
    ((⟨0, -1, 0, 1, 0, 0, 0, 0, 1⟩ : Mat3).transpose.mul ⟨0, -1, 0, 1, 0, 0, 0, 0, 1⟩ =
      Mat3.eye) ∧
    ((Complex.init ('C' :: []) ((⟨0, -1, 0, 1, 0, 0, 0, 0, 1⟩ : Mat3).mulVec ⟨1, 2, 3⟩)
        ('H' :: []) ((⟨0, -1, 0, 1, 0, 0, 0, 0, 1⟩ : Mat3).mulVec ⟨0, 0, -1⟩)).find_centroid).2 =
      (⟨0, -1, 0, 1, 0, 0, 0, 0, 1⟩ : Mat3).mulVec
        (((Complex.init ('C' :: []) ⟨1, 2, 3⟩ ('H' :: []) ⟨0, 0, -1⟩).find_centroid).2) := by
  have hQ : (⟨0, -1, 0, 1, 0, 0, 0, 0, 1⟩ : Mat3).transpose.mul ⟨0, -1, 0, 1, 0, 0, 0, 0, 1⟩ =
      Mat3.eye := by
    simp only [Mat3.transpose, Mat3.mul, Mat3.eye]
    norm_num
  exact ⟨hQ, C6_centroid_rotation_equivariance ('C' :: []) ('H' :: []) ⟨1, 2, 3⟩ ⟨0, 0, -1⟩ _ hQ⟩

/-- Claim C10 witness: the theorem applied at heavy `(0,0,0)`, bonded
`(0,0,-1)`. -/
theorem C10_witness :
    ((⟨0, 0, 0⟩ : Vec3) ≠ (⟨0, 0, -1⟩ : Vec3)) ∧
    ((Complex.init ('C' :: []) ⟨0, 0, 0⟩ ('H' :: []) ⟨0, 0, -1⟩).bond_length_norm ≠
      ⟨0, 0, -1⟩) ∧
    (1 / 3 : ℝ) •
        (((Complex.init ('C' :: []) ⟨0, 0, 0⟩
            ('H' :: []) ⟨0, 0, -1⟩).generate_substituent_vectors).2.1 +
          ((Complex.init ('C' :: []) ⟨0, 0, 0⟩
            ('H' :: []) ⟨0, 0, -1⟩).generate_substituent_vectors).2.2.1 +
          ((Complex.init ('C' :: []) ⟨0, 0, 0⟩
            ('H' :: []) ⟨0, 0, -1⟩).generate_substituent_vectors).2.2.2) =
      ((Complex.init ('C' :: []) ⟨0, 0, 0⟩ ('H' :: []) ⟨0, 0, -1⟩).find_centroid).2 := by
  have h1 : (⟨0, 0, 0⟩ : Vec3) ≠ (⟨0, 0, -1⟩ : Vec3) := by
    intro heq
    have hz := congrArg Vec3.z heq
    norm_num at hz
  have h2 : (Complex.init ('C' :: []) ⟨0, 0, 0⟩ ('H' :: []) ⟨0, 0, -1⟩).bond_length_norm ≠
      ⟨0, 0, -1⟩ := by
    intro heq
    have hz := congrArg Vec3.z heq
    simp only [Complex.init, Vec3.sub_def, Vec3.divScalar, linalg_norm] at hz
    norm_num at hz
  exact ⟨h1, h2, C10_mean_is_centroid ('C' :: []) ('H' :: []) ⟨0, 0, 0⟩ ⟨0, 0, -1⟩ h1 h2⟩

/-- Claim C8 witness: the layout theorem applied to a concrete state and a
constant one-character renderer. -/
theorem C8_witness :
    (∀ r : ℝ, NLfree ((fun _ : ℝ => ('0' :: [])) r)) ∧ NLfree ('C' :: []) ∧
    NLfree ('H' :: []) ∧
    ((Complex.init ('C' :: []) ⟨0, 0, 0⟩ ('H' :: []) ⟨0, 0, -1⟩).write_xyz
        (fun _ : ℝ => ('0' :: [])) [] ('H' :: []) ('H' :: []) ('H' :: []) =
      '4' :: '\n' :: '\n' ::
        (rowline (fun _ : ℝ => ('0' :: [])) ('C' :: []) ⟨0, 0, 0⟩ ++
         rowline (fun _ : ℝ => ('0' :: [])) ('H' :: []) ⟨0, 0, -1⟩ ++
         rowline (fun _ : ℝ => ('0' :: [])) ('H' :: [])
           ((Complex.init ('C' :: []) ⟨0, 0, 0⟩
             ('H' :: []) ⟨0, 0, -1⟩).generate_substituent_vectors).2.1 ++
         rowline (fun _ : ℝ => ('0' :: [])) ('H' :: [])
           ((Complex.init ('C' :: []) ⟨0, 0, 0⟩
             ('H' :: []) ⟨0, 0, -1⟩).generate_substituent_vectors).2.2.1 ++
         (rowline (fun _ : ℝ => ('0' :: [])) ('H' :: [])
           ((Complex.init ('C' :: []) ⟨0, 0, 0⟩
             ('H' :: []) ⟨0, 0, -1⟩).generate_substituent_vectors).2.2.2).dropLast)) := by
  have hzero : NLfree ('0' :: []) := by
    intro c hc
    simp only [List.mem_singleton] at hc
    subst hc
    exact ⟨by decide, by decide⟩
  have hf : ∀ r : ℝ, NLfree ((fun _ : ℝ => ('0' :: [])) r) := fun _ => hzero
  have hC : NLfree ('C' :: []) := by
    intro c hc
    simp only [List.mem_singleton] at hc
    subst hc
    exact ⟨by decide, by decide⟩
  have hH : NLfree ('H' :: []) := by
    intro c hc
    simp only [List.mem_singleton] at hc
    subst hc
    exact ⟨by decide, by decide⟩
  exact ⟨hf, hC, hH,
    C8_output_layout ('C' :: []) ('H' :: []) ('H' :: []) ('H' :: []) ('H' :: [])
      ⟨0, 0, 0⟩ ⟨0, 0, -1⟩ (fun _ : ℝ => ('0' :: [])) hf hC hH hH hH hH⟩


/-- Claim C7 (confirmed).  Translating both input points by any vector `t`
translates all three substituent points by `t`. -/
theorem C7_translation_equivariance (l0 l1 : List Char) (a h t : Vec3) :
    ((Complex.init l0 (a + t) l1 (h + t)).generate_substituent_vectors).2 =
      (((Complex.init l0 a l1 h).generate_substituent_vectors).2.1 + t,
       ((Complex.init l0 a l1 h).generate_substituent_vectors).2.2.1 + t,
       ((Complex.init l0 a l1 h).generate_substituent_vectors).2.2.2 + t) := by
  have hd : a + t - (h + t) = a - h := by
    ext <;> simp [Vec3.add_def, Vec3.sub_def]
  simp only [Complex.generate_substituent_vectors, Complex.find_centroid, Complex.init,
    Complex.distance, hd]
  simp only [Mat3.add, Mat3.mul, Mat3.smul, Mat3.eye, Mat3.mulVec, Vec3.add_def, Vec3.sub_def,
    Vec3.neg_def, Vec3.smul_def, Vec3.divScalar, Vec3.dot, Vec3.cross, linalg_norm,
    Prod.mk.injEq, Vec3.mk.injEq]
  norm_num
  refine ⟨⟨?_, ?_, ?_⟩, ⟨?_, ?_, ?_⟩, ?_, ?_, ?_⟩ <;> ring

end Chemspax
